import Mathlib

/-!
Verification development for the AWB scraper's table extraction and
normalization core.

The embedding models, from the source:
  * `extractTables` - the grid extractor (`parseHTML` in scraper.js),
    operating on an abstract DOM (the cheerio document already decomposed
    into table / row / cell nodes);
  * `usefulTablesFn` / `responseData` - the server-side result assembly
    (backend server file, `POST /api/scrape` handler);
  * `parseDCSCTables` / `parseGMRTables` / `parseTableData` - the UI-side
    normalizers (App.jsx).

JavaScript strings are modelled as Lean `String`; `.trim()`,
`.includes()`, `.toLowerCase()`, `.replace(/\s+/g, c)` and the regex test
`/^\d{2}-\w{3}-\d{2}/.test(...)` are given explicit executable
definitions.  JavaScript objects (records) are modelled as
insertion-ordered association lists with overwrite-in-place semantics
(`jsObjInsert`).  A JavaScript runtime error (access on `undefined`) is
modelled with `Except String`.
-/

/-- Character-list predicate mirroring JS `\s` for the ASCII inputs in play. -/
def wsChar (c : Char) : Bool := c.isWhitespace

/-- Drop trailing whitespace from a character list (structural recursion). -/
def trimRightCh : List Char → List Char
  | [] => []
  | a :: t =>
    match trimRightCh t with
    | [] => if wsChar a then [] else [a]
    | b :: r => a :: b :: r

/-- JS `String.prototype.trim`: remove leading and trailing whitespace. -/
def jsTrim (s : String) : String := ⟨trimRightCh (s.data.dropWhile wsChar)⟩

/-- Does the character list `s` start with `sub`? -/
def hasPrefixCh : List Char → List Char → Bool
  | _, [] => true
  | [], _ :: _ => false
  | a :: s, b :: t => a == b && hasPrefixCh s t

/-- Does the character list `s` contain `sub` as a contiguous sublist? -/
def containsCh : List Char → List Char → Bool
  | s, sub =>
    hasPrefixCh s sub ||
      (match s with
       | [] => false
       | _ :: t => containsCh t sub)

/-- JS `String.prototype.includes`. -/
def jsIncludes (s sub : String) : Bool := containsCh s.data sub.data

/-- JS `String.prototype.startsWith`. -/
def jsStartsWith (s pre : String) : Bool := hasPrefixCh s.data pre.data

/-- Replace every maximal whitespace run by the single character `c`
(body of JS `.replace(/\s+/g, c)`), tracking whether we are inside a run. -/
def collapseRunsAux (c : Char) : Bool → List Char → List Char
  | _, [] => []
  | inRun, a :: t =>
    if wsChar a then
      if inRun then collapseRunsAux c true t
      else c :: collapseRunsAux c true t
    else a :: collapseRunsAux c false t

/-- JS `.replace(/\s+/g, c)` on a string. -/
def collapseRuns (c : Char) (s : String) : String := ⟨collapseRunsAux c false s.data⟩

/-- Header-key derivation used by both normalizers:
`h.trim().replace(/\s+/g, ' ')`. -/
def normalizeHeader (s : String) : String := collapseRuns ' ' (jsTrim s)

/-- JS `String.prototype.toLowerCase` (character-wise, ASCII-faithful). -/
def jsToLower (s : String) : String := ⟨s.data.map Char.toLower⟩

/-- Section slug used by the DCSC normalizer:
`row[0].toLowerCase().replace(/\s+/g, '_')` (note: no trim). -/
def slugOf (s : String) : String := collapseRuns '_' (jsToLower s)

/-- JS word character, the `\w` class: letter, digit or underscore. -/
def wordChar (c : Char) : Bool := c.isAlphanum || c == '_'

/-- The test `/^\d{2}-\w{3}-\d{2}/.test(cell)` from `parseDCSCTables`:
the string begins with two digits, a hyphen, three word characters,
a hyphen and two digits. -/
def dateLikeTest (s : String) : Bool :=
  match s.data with
  | d1 :: d2 :: h1 :: w1 :: w2 :: w3 :: h2 :: d3 :: d4 :: _ =>
    d1.isDigit && d2.isDigit && h1 == '-' &&
    wordChar w1 && wordChar w2 && wordChar w3 &&
    h2 == '-' && d3.isDigit && d4.isDigit
  | _ => false

/-- Modelled from the spec: the claim's own date pattern with "three
letters" in the middle (two digits, hyphen, three letters, hyphen, two
digits), tested at one starting position. Used only to compare the spec's
wording with the source's `\w`-based regex. -/
def specLetterDateAt (l : List Char) : Bool :=
  match l with
  | d1 :: d2 :: h1 :: a1 :: a2 :: a3 :: h2 :: d3 :: d4 :: _ =>
    d1.isDigit && d2.isDigit && h1 == '-' &&
    a1.isAlpha && a2.isAlpha && a3.isAlpha &&
    h2 == '-' && d3.isDigit && d4.isDigit
  | _ => false

/-- Modelled from the spec: does the cell contain, at any position, the
claim's letters-only date pattern?  This is the most lenient reading of
the claim's "cell matches a date-like pattern of two digits, hyphen,
three letters, hyphen, two digits". -/
def specContainsLetterDate (s : String) : Bool := s.data.tails.any specLetterDateAt

/-! ## DOM model and the grid extractor (`parseHTML`) -/

/-- A cell node of the already-parsed HTML document: its text content and
its tag name (`"td"` or `"th"`). -/
structure DomCell where
  text : String
  tag : String
  deriving DecidableEq

/-- A row node (`tr`) with its cell nodes (`td`, `th`) in document order. -/
structure DomRow where
  cells : List DomCell
  deriving DecidableEq

/-- A table node with its optional `id` attribute and its row nodes. -/
structure DomTable where
  id : Option String
  rows : List DomRow
  deriving DecidableEq

/-- An extracted cell: `{ text, isHeader }` with trimmed non-empty text. -/
structure ExtCell where
  text : String
  isHeader : Bool
  deriving DecidableEq

/-- An extracted row: `{ row_number, cells }`. -/
structure ExtRow where
  row_number : Nat
  cells : List ExtCell
  deriving DecidableEq

/-- An extracted table: `{ table_number, table_id, total_rows, rows }`. -/
structure ExtTable where
  table_number : Nat
  table_id : String
  total_rows : Nat
  rows : List ExtRow
  deriving DecidableEq

/-- Cell extraction loop of `parseHTML`: trim each cell's text, keep only
non-empty cells, flag `th` cells as headers. -/
def extractCells (cs : List DomCell) : List ExtCell :=
  cs.filterMap (fun c =>
    let t := jsTrim c.text
    if t = "" then none else some ⟨t, c.tag == "th"⟩)

/-- Row extraction loop of `parseHTML`: keep a row only if it retained a
cell; `row_number` is the row's index among all `tr` nodes of the table. -/
def extractRows (rs : List DomRow) : List ExtRow :=
  rs.enum.filterMap (fun p =>
    let cs := extractCells p.2.cells
    if cs = [] then none else some ⟨p.1, cs⟩)

/-- One step of the table loop of `parseHTML`: the accumulator carries the
retained tables and `tableIndex`, which counts only retained tables and
provides both the synthetic id fallback and `table_number`. -/
def extractStep (acc : List ExtTable × Nat) (t : DomTable) : List ExtTable × Nat :=
  let rs := extractRows t.rows
  if rs = [] then acc
  else
    let attrId := t.id.getD ""
    let tid := if attrId = "" then "table_" ++ toString acc.2 else attrId
    (acc.1 ++ [⟨acc.2, tid, rs.length, rs⟩], acc.2 + 1)

/-- Table extraction of `parseHTML`: all tables of the document, with
empty cells, cell-less rows and row-less tables dropped. -/
def extractTables (dom : List DomTable) : List ExtTable :=
  (dom.foldl extractStep ([], 0)).1

/-- The `serviceOptions` dictionary of the scraper class. -/
def serviceNameOf (opt : String) : String :=
  if opt = "1" then "DCSC - Delhi Cargo Service Centre"
  else if opt = "2" then "GMR ARGO - Cargo Tracking"
  else "undefined"

/-! ## Server-side result assembly (backend `POST /api/scrape`) -/

/-- One table of the server response: raw rows as lists of cell texts. -/
structure RawTable where
  table_id : String
  table_number : Nat
  total_rows : Nat
  rows : List (List String)
  deriving DecidableEq

/-- The server's `responseData` object. -/
structure RawData where
  awb_number : String
  service_name : String
  service_code : String
  extraction_time : String
  total_tables : Nat
  tables : List RawTable
  deriving DecidableEq

/-- The server's per-source table selection: GMR keeps only tables whose
id starts with `Grid` or `grd`; every other service code keeps only the
first extracted table. -/
def usefulTablesFn (serviceOption : String) (ts : List ExtTable) : List ExtTable :=
  if serviceOption = "2" then
    ts.filter (fun t => jsStartsWith t.table_id "Grid" || jsStartsWith t.table_id "grd")
  else ts.take 1

/-- The server's `responseData`: envelope with a fresh locale timestamp
(`now`, read from the wall clock at response time) and the selected
tables renumbered `1..k` in output order, rows flattened to cell texts. -/
def responseData (serviceOption awb serviceName now : String)
    (all_tables : List ExtTable) : RawData :=
  let useful := usefulTablesFn serviceOption all_tables
  { awb_number := awb
    service_name := serviceName
    service_code := serviceOption
    extraction_time := now
    total_tables := useful.length
    tables := useful.enum.map (fun p =>
      ⟨p.2.table_id, p.1 + 1, p.2.rows.length,
        p.2.rows.map (fun r => r.cells.map (fun c => c.text))⟩) }

/-- The server's mapping from the request's `service` field to the option
code: `'gmr'` maps to `'2'`, anything else maps to `'1'` (DCSC). -/
def serviceOptionOf (service : String) : String :=
  if service = "gmr" then "2" else "1"

/-! ## JavaScript object model for records -/

/-- A normalized record: a JS object as an insertion-ordered list of
key/value pairs with unique keys. -/
abbrev Record := List (String × String)

/-- JS property assignment `obj[k] = v`: overwrite in place if the key
exists, else append. -/
def jsObjInsert (m : Record) (k v : String) : Record :=
  if m.any (fun p => p.1 == k) then
    m.map (fun p => if p.1 == k then (k, v) else p)
  else m ++ [(k, v)]

/-! ## DCSC section normalizer (`parseDCSCTables`, source A) -/

/-- A section of the DCSC normalizer. -/
structure DSection where
  section_title : String
  table_id : String
  data : List Record
  deriving DecidableEq

/-- Section-start test: a row of exactly one cell whose text contains the
case-sensitive marker `"DETAILS"`. -/
def isSectionStart (row : List String) : Bool :=
  row.length == 1 && jsIncludes (row.headD "") "DETAILS"

/-- Header-candidate test `looksLikeHeader` of `parseDCSCTables`. -/
def looksLikeHeader (row : List String) : Bool :=
  decide (1 < row.length) && decide (row.length < 20) &&
  row.all (fun c => decide (0 < c.length) && decide (c.length < 50)) &&
  !(row.any dateLikeTest)

/-- The record-building loop of `parseDCSCTables`:
`currentHeaders.forEach((header, j) => obj[header || 'Column ' + (j+1)] = row[j] || '')`,
with `i` the running 0-based position. -/
def dcscInsertAll (row : List String) : Nat → List String → Record → Record
  | _, [], m => m
  | i, h :: t, m =>
    dcscInsertAll row (i + 1) t
      (jsObjInsert m (if h = "" then "Column " ++ toString (i + 1) else h) (row.getD i ""))

/-- A DCSC record built from the current headers and a data row. -/
def dcscRecord (hdrs row : List String) : Record := dcscInsertAll row 0 hdrs []

/-- The key the DCSC record builder uses at position `i` for each header,
from position `i` on: the header itself, or the placeholder
`Column <1-based index>` when the header text is empty. -/
def dcscKeysFrom : Nat → List String → List String
  | _, [] => []
  | i, h :: t => (if h = "" then "Column " ++ toString (i + 1) else h) :: dcscKeysFrom (i + 1) t

/-- The derived key list of a DCSC header row. -/
def dcscKeys (hdrs : List String) : List String := dcscKeysFrom 0 hdrs

/-- The per-table state of `parseDCSCTables`: sections pushed so far,
`currentSection`, `currentHeaders`. -/
structure DcscState where
  out : List DSection
  cur : Option DSection
  headers : List String
  deriving DecidableEq

/-- Emission of the current section: pushed iff it exists and holds at
least one record. -/
def flushSec : Option DSection → List DSection
  | none => []
  | some s => if s.data.isEmpty then [] else [s]

/-- One iteration of the row loop of `parseDCSCTables`. -/
def dcscStep (st : DcscState) (row : List String) : DcscState :=
  if isSectionStart row then
    { out := st.out ++ flushSec st.cur
      cur := some ⟨jsTrim (row.headD ""), slugOf (row.headD ""), []⟩
      headers := [] }
  else
    match st.cur with
    | none => st
    | some s =>
      if row.isEmpty then st
      else if looksLikeHeader row && st.headers.isEmpty then
        { st with headers := row.map normalizeHeader }
      else if (!st.headers.isEmpty) && row.length == st.headers.length then
        { st with cur := some { s with data := s.data ++ [dcscRecord st.headers row] } }
      else st

/-- The row loop of `parseDCSCTables` over one table. -/
def dcscRun (rows : List (List String)) (st : DcscState) : DcscState :=
  rows.foldl dcscStep st

/-- End-of-table flush of `parseDCSCTables`. -/
def dcscFinish (st : DcscState) : List DSection := st.out ++ flushSec st.cur

/-- Sections emitted by `parseDCSCTables` for one table. -/
def dcscTable (rows : List (List String)) : List DSection :=
  dcscFinish (dcscRun rows ⟨[], none, []⟩)

/-- Sections emitted across all tables (state is re-initialized per table;
`allSections` accumulates). -/
def dcscAll (ts : List RawTable) : List DSection :=
  ts.foldl (fun acc t => acc ++ dcscTable t.rows) []

/-- One table of the final DCSC envelope. -/
structure DcscOutTable where
  table_id : String
  table_number : Nat
  section_title : String
  data : List Record
  total_rows : Nat
  deriving DecidableEq

/-- The final DCSC envelope (`{...rawData, total_tables, tables}`). -/
structure DcscEnvelope where
  awb_number : String
  service_name : String
  service_code : String
  extraction_time : String
  total_tables : Nat
  tables : List DcscOutTable
  deriving DecidableEq

/-- `parseDCSCTables` from App.jsx. -/
def parseDCSCTables (rd : RawData) : DcscEnvelope :=
  let secs := dcscAll rd.tables
  { awb_number := rd.awb_number
    service_name := rd.service_name
    service_code := rd.service_code
    extraction_time := rd.extraction_time
    total_tables := secs.length
    tables := secs.enum.map (fun p =>
      ⟨p.2.table_id, p.1 + 1, p.2.section_title, p.2.data, p.2.data.length⟩) }

/-! ## GMR header-inference normalizer (`parseGMRTables`, source B) -/

/-- The GMR header-row test: more than one cell, every cell shorter than
100 characters. -/
def gmrHeaderPred (r : List String) : Bool :=
  decide (1 < r.length) && r.all (fun c => decide (c.length < 100))

/-- The header-search loop of `parseGMRTables` (first match wins). -/
def gmrFindHeader : Nat → List (List String) → Option Nat
  | _, [] => none
  | i, r :: rs => if gmrHeaderPred r then some i else gmrFindHeader (i + 1) rs

/-- `headerRowIndex`: the first qualifying row, defaulting to 0. -/
def gmrHeaderIndex (rows : List (List String)) : Nat :=
  (gmrFindHeader 0 rows).getD 0

/-- The record-building loop of `parseGMRTables`:
`headers.forEach((header, i) => { if (header && row[i] !== undefined) obj[header] = row[i] || '' })`. -/
def gmrInsertAll (row : List String) : Nat → List String → Record → Record
  | _, [], m => m
  | i, h :: t, m =>
    gmrInsertAll row (i + 1) t
      (if h ≠ "" ∧ i < row.length then jsObjInsert m h (row.getD i "") else m)

/-- A GMR record built from the headers and a data row. -/
def gmrRecord (hdrs row : List String) : Record := gmrInsertAll row 0 hdrs []

/-- One table of the final GMR envelope. -/
structure GmrOutTable where
  table_id : String
  table_number : Nat
  data : List Record
  total_rows : Nat
  deriving DecidableEq

/-- The final GMR envelope (`{...rawData, tables}`). -/
structure GmrEnvelope where
  awb_number : String
  service_name : String
  service_code : String
  extraction_time : String
  total_tables : Nat
  tables : List GmrOutTable
  deriving DecidableEq

/-- `parseGMRTables` on one table.  When the table has no rows the code
reads `rows[headerRowIndex]` (with the defaulted index 0) on `undefined`
and throws; this is the `Except.error` branch. -/
def parseGMRTable (tid : String) (tnum : Nat) (rows : List (List String)) :
    Except String GmrOutTable :=
  let hIdx := gmrHeaderIndex rows
  if hIdx < rows.length then
    let headers := (rows.getD hIdx []).map normalizeHeader
    let dataRows := rows.drop (hIdx + 1)
    let cleanData := dataRows.map (fun r => gmrRecord headers r)
    .ok ⟨tid, tnum, cleanData, cleanData.length⟩
  else .error "TypeError: cannot read properties of undefined"

/-- `parseGMRTables` from App.jsx: map over the raw tables; a thrown
error aborts the whole call. -/
def parseGMRTables (rd : RawData) : Except String GmrEnvelope :=
  (rd.tables.mapM (fun t => parseGMRTable t.table_id t.table_number t.rows)).map
    (fun ts =>
      { awb_number := rd.awb_number
        service_name := rd.service_name
        service_code := rd.service_code
        extraction_time := rd.extraction_time
        total_tables := rd.total_tables
        tables := ts })

/-! ## UI dispatcher (`parseTableData`) and the end-to-end pipeline -/

/-- The result of `parseTableData`: a DCSC envelope, a GMR envelope, or
the raw data passed through unchanged for any other service code. -/
inductive UIResult where
  | dcsc : DcscEnvelope → UIResult
  | gmr : GmrEnvelope → UIResult
  | raw : RawData → UIResult
  deriving DecidableEq

/-- `parseTableData` from App.jsx. -/
def parseTableData (rd : RawData) : Except String UIResult :=
  if rd.service_code = "1" then .ok (.dcsc (parseDCSCTables rd))
  else if rd.service_code = "2" then (parseGMRTables rd).map .gmr
  else .ok (.raw rd)

/-- Full extraction-plus-normalization pipeline on an already-fetched
document: server-side extraction and assembly (`now` is the wall-clock
string the server stamps into the envelope), then UI-side normalization. -/
def pipelineOut (service awbNumber : String) (dom : List DomTable) (now : String) :
    Except String UIResult :=
  let opt := serviceOptionOf service
  let tables := extractTables dom
  let rd := responseData opt (jsTrim awbNumber) (serviceNameOf opt) now tables
  parseTableData rd

/-- Overwrite the extraction timestamp of a UI result. -/
def setTimeUI (t : String) : UIResult → UIResult
  | .dcsc e => .dcsc { e with extraction_time := t }
  | .gmr e => .gmr { e with extraction_time := t }
  | .raw rd => .raw { rd with extraction_time := t }

/-- Erase the extraction timestamp everywhere in a pipeline outcome. -/
def stripTimeE (x : Except String UIResult) : Except String UIResult :=
  x.map (setTimeUI "")

/-- The extraction timestamp carried by a pipeline outcome. -/
def uiTimeE : Except String UIResult → String
  | .ok (.dcsc e) => e.extraction_time
  | .ok (.gmr e) => e.extraction_time
  | .ok (.raw rd) => rd.extraction_time
  | .error _ => ""

/-! ## Reference (specification-side) decomposition of the DCSC machine -/

/-- Split a table's rows at the section-start events: returns the rows
before the first section start, and for each section-start event the
marker cell's text together with the rows accumulated up to the next
section start or the end of the table. -/
def segsH : List (List String) → List (List String) × List (String × List (List String))
  | [] => ([], [])
  | r :: rs =>
    let p := segsH rs
    if isSectionStart r then ([], (r.headD "", p.1) :: p.2)
    else (r :: p.1, p.2)

/-- Header/record accumulation within a single section, as a fold over
the section's body rows. -/
def segStep (acc : List String × List Record) (row : List String) :
    List String × List Record :=
  if row.isEmpty then acc
  else if looksLikeHeader row && acc.1.isEmpty then (row.map normalizeHeader, acc.2)
  else if (!acc.1.isEmpty) && row.length == acc.1.length then
    (acc.1, acc.2 ++ [dcscRecord acc.1 row])
  else acc

/-- The records a section accumulates from its body rows. -/
def segRecords (body : List (List String)) : List Record :=
  (body.foldl segStep ([], [])).2

/-- The section a section-start event would produce, before the
non-emptiness filter. -/
def secOfSeg (seg : String × List (List String)) : DSection :=
  ⟨jsTrim seg.1, slugOf seg.1, segRecords seg.2⟩

instance {ε α : Type} [DecidableEq ε] [DecidableEq α] : DecidableEq (Except ε α) :=
  fun a b =>
    match a, b with
    | .ok x, .ok y =>
      if h : x = y then isTrue (by rw [h]) else isFalse (by intro hh; cases hh; exact h rfl)
    | .error x, .error y =>
      if h : x = y then isTrue (by rw [h]) else isFalse (by intro hh; cases hh; exact h rfl)
    | .ok _, .error _ => isFalse (by intro hh; cases hh)
    | .error _, .ok _ => isFalse (by intro hh; cases hh)

/-! ## Helper lemmas: trimming -/

theorem dropWhile_head_false {p : Char → Bool} :
    ∀ (l : List Char) a t, l.dropWhile p = a :: t → p a = false := by
  intro l
  induction l with
  | nil => intro a t h; cases h
  | cons b l' ih =>
    intro a t h
    rw [List.dropWhile_cons] at h
    by_cases hb : p b = true
    · rw [if_pos hb] at h; exact ih a t h
    · rw [if_neg hb] at h
      cases h
      simpa using hb

theorem trimRightCh_head (a : Char) (t : List Char) :
    trimRightCh (a :: t) = [] ∨ ∃ r, trimRightCh (a :: t) = a :: r := by
  cases h : trimRightCh t with
  | nil =>
    by_cases hw : wsChar a = true
    · left; simp [trimRightCh, h, hw]
    · right; refine ⟨[], ?_⟩; simp [trimRightCh, h, hw]
  | cons b r =>
    right; refine ⟨b :: r, ?_⟩; simp [trimRightCh, h]

theorem trimRightCh_idem : ∀ l : List Char, trimRightCh (trimRightCh l) = trimRightCh l := by
  intro l
  induction l with
  | nil => rfl
  | cons a t ih =>
    cases h : trimRightCh t with
    | nil =>
      by_cases hw : wsChar a = true
      · simp [trimRightCh, h, hw]
      · simp [trimRightCh, h, hw]
    | cons b r =>
      rw [h] at ih
      have step : trimRightCh (a :: t) = a :: b :: r := by
        show (match trimRightCh t with
              | [] => if wsChar a = true then [] else [a]
              | c :: r' => a :: c :: r') = a :: b :: r
        rw [h]
      rw [step]
      show (match trimRightCh (b :: r) with
            | [] => if wsChar a = true then [] else [a]
            | c :: r' => a :: c :: r') = a :: b :: r
      rw [ih]

theorem dropWhile_trimRight_dropWhile (l : List Char) :
    (trimRightCh (l.dropWhile wsChar)).dropWhile wsChar = trimRightCh (l.dropWhile wsChar) := by
  cases h : l.dropWhile wsChar with
  | nil => rfl
  | cons a t =>
    have ha : wsChar a = false := dropWhile_head_false l a t h
    rcases trimRightCh_head a t with h2 | ⟨r, h2⟩
    · rw [h2]; rfl
    · rw [h2, List.dropWhile_cons, ha]; simp

/-- The JS trim is idempotent: the extractor's stored cell texts are
trim-fixed points. -/
theorem jsTrim_idem (s : String) : jsTrim (jsTrim s) = jsTrim s := by
  show (⟨trimRightCh ((trimRightCh (s.data.dropWhile wsChar)).dropWhile wsChar)⟩ : String)
      = ⟨trimRightCh (s.data.dropWhile wsChar)⟩
  rw [dropWhile_trimRight_dropWhile, trimRightCh_idem]

/-! ## Helper lemmas: extractor soundness -/

theorem extractCells_sound (cs : List DomCell) :
    ∀ c ∈ extractCells cs, c.text ≠ "" ∧ jsTrim c.text = c.text := by
  intro c hc
  rw [extractCells, List.mem_filterMap] at hc
  obtain ⟨d, _, hd⟩ := hc
  have hd' : (if jsTrim d.text = "" then (none : Option ExtCell)
      else some ⟨jsTrim d.text, d.tag == "th"⟩) = some c := hd
  by_cases he : jsTrim d.text = ""
  · rw [if_pos he] at hd'; cases hd'
  · rw [if_neg he] at hd'
    cases hd'
    exact ⟨he, jsTrim_idem d.text⟩

theorem extractRows_sound (rs : List DomRow) :
    ∀ r ∈ extractRows rs,
      r.cells ≠ [] ∧ ∀ c ∈ r.cells, c.text ≠ "" ∧ jsTrim c.text = c.text := by
  intro r hr
  rw [extractRows, List.mem_filterMap] at hr
  obtain ⟨p, _, hp⟩ := hr
  by_cases he : extractCells p.2.cells = []
  · simp [he] at hp
  · rw [if_neg he] at hp
    cases hp
    exact ⟨he, extractCells_sound p.2.cells⟩

theorem extractTables_aux :
    ∀ (ts : List DomTable) (acc : List ExtTable × Nat),
      (∀ t ∈ acc.1, t.rows ≠ [] ∧
        ∀ r ∈ t.rows, r.cells ≠ [] ∧ ∀ c ∈ r.cells, c.text ≠ "" ∧ jsTrim c.text = c.text) →
      ∀ t ∈ (ts.foldl extractStep acc).1, t.rows ≠ [] ∧
        ∀ r ∈ t.rows, r.cells ≠ [] ∧ ∀ c ∈ r.cells, c.text ≠ "" ∧ jsTrim c.text = c.text := by
  intro ts
  induction ts with
  | nil => intro acc hacc; simpa using hacc
  | cons d ds ih =>
    intro acc hacc
    rw [List.foldl_cons]
    apply ih
    rw [extractStep]
    by_cases he : extractRows d.rows = []
    · rw [if_pos he]; exact hacc
    · rw [if_neg he]
      intro t ht
      rcases List.mem_append.mp ht with h1 | h2
      · exact hacc t h1
      · have : t = ⟨acc.2, _, (extractRows d.rows).length, extractRows d.rows⟩ :=
          List.mem_singleton.mp h2
        subst this
        exact ⟨he, extractRows_sound d.rows⟩

/-- Shared soundness of the grid extractor: every retained table has a
row, every retained row has a cell, every retained cell's text is a
non-empty trim-fixed string. -/
theorem extractTables_sound (dom : List DomTable) :
    ∀ t ∈ extractTables dom, t.rows ≠ [] ∧
      ∀ r ∈ t.rows, r.cells ≠ [] ∧ ∀ c ∈ r.cells, c.text ≠ "" ∧ jsTrim c.text = c.text := by
  apply extractTables_aux dom ([], 0)
  intro t ht
  cases ht

/-! ## Helper lemmas: GMR header search and totality -/

theorem gmrFindHeader_some :
    ∀ (rows : List (List String)) (i j : Nat), gmrFindHeader i rows = some j →
      i ≤ j ∧ j - i < rows.length ∧ gmrHeaderPred (rows.getD (j - i) []) = true ∧
      ∀ k < j - i, gmrHeaderPred (rows.getD k []) = false := by
  intro rows
  induction rows with
  | nil => intro i j h; cases h
  | cons r rs ih =>
    intro i j h
    rw [gmrFindHeader] at h
    by_cases hp : gmrHeaderPred r = true
    · rw [if_pos hp] at h
      cases h
      refine ⟨Nat.le_refl _, by simp, ?_, ?_⟩
      · simpa using hp
      · intro k hk; omega
    · rw [if_neg hp] at h
      obtain ⟨h1, h2, h3, h4⟩ := ih (i + 1) j h
      have hji : 1 ≤ j - i := by omega
      refine ⟨by omega, by simp; omega, ?_, ?_⟩
      · have : j - i = (j - (i + 1)) + 1 := by omega
        rw [this, List.getD_cons_succ]
        exact h3
      · intro k hk
        cases k with
        | zero => simpa using hp
        | succ k' =>
          rw [List.getD_cons_succ]
          exact h4 k' (by omega)

theorem gmrFindHeader_none :
    ∀ (rows : List (List String)) (i : Nat), gmrFindHeader i rows = none →
      ∀ r ∈ rows, gmrHeaderPred r = false := by
  intro rows
  induction rows with
  | nil => intro i _ r hr; cases hr
  | cons q rs ih =>
    intro i h r hr
    rw [gmrFindHeader] at h
    by_cases hp : gmrHeaderPred q = true
    · rw [if_pos hp] at h; cases h
    · rw [if_neg hp] at h
      rcases List.mem_cons.mp hr with h1 | h2
      · subst h1; simpa using hp
      · exact ih (i + 1) h r h2

theorem gmrHeaderIndex_lt (rows : List (List String)) (h : rows ≠ []) :
    gmrHeaderIndex rows < rows.length := by
  rw [gmrHeaderIndex]
  cases hf : gmrFindHeader 0 rows with
  | none =>
    have : 0 < rows.length := List.length_pos.mpr h
    simpa using this
  | some j =>
    have := (gmrFindHeader_some rows 0 j hf).2.1
    simpa using this

theorem parseGMRTable_total (tid : String) (tnum : Nat) (rows : List (List String))
    (h : rows ≠ []) : ∃ out, parseGMRTable tid tnum rows = .ok out := by
  simp only [parseGMRTable]
  rw [if_pos (gmrHeaderIndex_lt rows h)]
  exact ⟨_, rfl⟩

theorem mapM_except_ok {α β : Type} (l : List α) (f : α → Except String β)
    (h : ∀ a ∈ l, ∃ b, f a = .ok b) : ∃ bs, l.mapM f = .ok bs := by
  induction l with
  | nil => exact ⟨[], rfl⟩
  | cons a t ih =>
    obtain ⟨b, hb⟩ := h a (List.mem_cons_self a t)
    obtain ⟨bs, hbs⟩ := ih (fun x hx => h x (List.mem_cons_of_mem a hx))
    refine ⟨b :: bs, ?_⟩
    rw [List.mapM_cons, hb, hbs]
    rfl

theorem usefulTablesFn_subset (opt : String) (ts : List ExtTable) :
    ∀ t ∈ usefulTablesFn opt ts, t ∈ ts := by
  intro t ht
  rw [usefulTablesFn] at ht
  by_cases h2 : opt = "2"
  · rw [if_pos h2] at ht
    exact (List.mem_filter.mp ht).1
  · rw [if_neg h2] at ht
    exact List.take_subset 1 ts ht

/-! ## Claim theorems -/

/-- C5: the Grid Extractor never outputs an empty-trimmed-text cell, a
cell-less row or a row-less table: every table retained by `extractTables`
has at least one row, every row at least one cell, and every cell's text
is non-empty and already trimmed. -/
theorem C5_extractor_emptiness_invariant (dom : List DomTable) :
    ∀ t ∈ extractTables dom, t.rows ≠ [] ∧
      ∀ r ∈ t.rows, r.cells ≠ [] ∧ ∀ c ∈ r.cells, c.text ≠ "" ∧ jsTrim c.text = c.text :=
  extractTables_sound dom

/-- Witness for C5 at a concrete document with an all-whitespace cell,
an empty cell and a cell-less row. -/
theorem C5_extractor_emptiness_invariant_witness :
    ([(⟨0, [⟨"A", false⟩]⟩ : ExtRow)] ≠ []) ∧ ([(⟨"A", false⟩ : ExtCell)] ≠ []) ∧
      ("A" : String) ≠ "" ∧ jsTrim "A" = "A" := by
  have h := C5_extractor_emptiness_invariant
      [⟨some "grd1", [⟨[⟨" A ", "td"⟩, ⟨"  ", "td"⟩]⟩, ⟨[⟨"", "td"⟩]⟩]⟩]
      ⟨0, "grd1", 1, [⟨0, [⟨"A", false⟩]⟩]⟩ (by decide)
  have h2 := h.2 ⟨0, [⟨"A", false⟩]⟩ (by decide)
  have h3 := h2.2 ⟨"A", false⟩ (by decide)
  exact ⟨h.1, h2.1, h3.1, h3.2⟩

/-- C6 (amended): the dispatcher never fails on an unknown source
identifier.  The UI `parseTableData` returns its input unchanged for any
service code outside the set, the known codes dispatch purely to the
matching normalizer, and the server maps every request identifier other
than `gmr` (including `C`) to the DCSC code `1`. -/
theorem C6_source_classifier_dispatch :
    (∀ rd : RawData, rd.service_code ≠ "1" → rd.service_code ≠ "2" →
      parseTableData rd = .ok (.raw rd)) ∧
    (∀ rd : RawData, rd.service_code = "1" →
      parseTableData rd = .ok (.dcsc (parseDCSCTables rd))) ∧
    (∀ rd : RawData, rd.service_code = "2" →
      parseTableData rd = (parseGMRTables rd).map .gmr) ∧
    serviceOptionOf "C" = "1" := by
  refine ⟨?_, ?_, ?_, rfl⟩
  · intro rd h1 h2
    rw [parseTableData, if_neg h1, if_neg h2]
  · intro rd h
    rw [parseTableData, if_pos h]
  · intro rd h
    have h1 : rd.service_code ≠ "1" := by rw [h]; decide
    rw [parseTableData, if_neg h1, if_pos h]

/-- Witness for C6 at a concrete unknown service code. -/
theorem C6_source_classifier_dispatch_witness :
    parseTableData ⟨"a", "s", "X", "t", 0, []⟩ = .ok (.raw ⟨"a", "s", "X", "t", 0, []⟩) :=
  C6_source_classifier_dispatch.1 ⟨"a", "s", "X", "t", 0, []⟩ (by decide) (by decide)

/-- Counterexample to C6 as stated: the unknown source identifier `C`
does not fail with any error.  The UI dispatcher returns the raw data
unchanged, the server maps `C` to the DCSC code `1`, and the end-to-end
pipeline on identifier `C` happily produces a full DCSC envelope. -/
theorem C6_unknown_source_counterexample :
    parseTableData ⟨"123", "svc", "C", "t0", 0, []⟩ =
      .ok (.raw ⟨"123", "svc", "C", "t0", 0, []⟩) ∧
    serviceOptionOf "C" = "1" ∧
    pipelineOut "C" "1" [] "now" =
      .ok (.dcsc ⟨"1", "DCSC - Delhi Cargo Service Centre", "1", "now", 0, []⟩) := by
  exact ⟨by decide, rfl, by decide⟩

/-- C10: on a table whose row list is empty the GMR normalizer reads the
row at the defaulted header index 0 and fails with a JS `TypeError`
rather than returning an empty result; any table with at least one row
succeeds; and the grid extractor never emits a row-less table, so the
failing branch is unreachable end-to-end (the whole GMR normalization of
a served extraction always succeeds). -/
theorem C10_gmr_empty_table_totality :
    (∀ tid tnum, parseGMRTable tid tnum [] =
      .error "TypeError: cannot read properties of undefined") ∧
    (∀ tid tnum rows, rows ≠ [] → ∃ out, parseGMRTable tid tnum rows = .ok out) ∧
    (∀ dom : List DomTable, ∀ t ∈ extractTables dom, t.rows ≠ []) ∧
    (∀ awb name now (dom : List DomTable), ∃ e,
      parseGMRTables (responseData "2" awb name now (extractTables dom)) = .ok e) := by
  refine ⟨fun tid tnum => rfl, parseGMRTable_total, ?_, ?_⟩
  · intro dom t ht
    exact (extractTables_sound dom t ht).1
  · intro awb name now dom
    have hrows : ∀ rt ∈ (responseData "2" awb name now (extractTables dom)).tables,
        rt.rows ≠ [] := by
      intro rt hrt
      simp only [responseData] at hrt
      obtain ⟨p, hp, hmk⟩ := List.mem_map.mp hrt
      obtain ⟨i, et⟩ := p
      have hmem : et ∈ usefulTablesFn "2" (extractTables dom) := by
        have := List.mem_enumFrom hp
        rw [this.2.2]
        exact List.getElem_mem _
      have hext : et ∈ extractTables dom := usefulTablesFn_subset _ _ _ hmem
      have hne : et.rows ≠ [] := (extractTables_sound dom et hext).1
      rw [← hmk]
      simpa using hne
    have hok : ∀ rt ∈ (responseData "2" awb name now (extractTables dom)).tables,
        ∃ b, parseGMRTable rt.table_id rt.table_number rt.rows = .ok b :=
      fun rt hrt => parseGMRTable_total rt.table_id rt.table_number rt.rows (hrows rt hrt)
    obtain ⟨bs, hbs⟩ := mapM_except_ok _ _ hok
    rw [parseGMRTables, hbs]
    exact ⟨_, rfl⟩

/-- Witness for C10 at a concrete non-empty table and a concrete document. -/
theorem C10_gmr_empty_table_totality_witness :
    ([["x"]] : List (List String)) ≠ [] ∧
    (∃ out, parseGMRTable "t" 1 [["x"]] = .ok out) ∧
    (∃ e, parseGMRTables (responseData "2" "a" "n" "now" (extractTables [])) = .ok e) :=
  ⟨by decide, C10_gmr_empty_table_totality.2.1 "t" 1 [["x"]] (by decide),
    C10_gmr_empty_table_totality.2.2.2 "a" "n" "now" []⟩

/-! ## Helper lemmas: record membership -/

theorem mem_jsObjInsert (m : Record) (k v : String) (p : String × String)
    (hp : p ∈ jsObjInsert m k v) : p ∈ m ∨ p = (k, v) := by
  rw [jsObjInsert] at hp
  by_cases hc : m.any (fun q => q.1 == k) = true
  · rw [if_pos hc] at hp
    obtain ⟨q, hq, hfq⟩ := List.mem_map.mp hp
    by_cases hqk : (q.1 == k) = true
    · rw [if_pos hqk] at hfq
      right; exact hfq.symm
    · rw [if_neg hqk] at hfq
      left; rw [← hfq]; exact hq
  · rw [if_neg hc] at hp
    rcases List.mem_append.mp hp with h1 | h2
    · left; exact h1
    · right; exact List.mem_singleton.mp h2

theorem mem_gmrInsertAll :
    ∀ (hdrs : List String) (i : Nat) (row : List String) (m : Record) (p : String × String),
      p ∈ gmrInsertAll row i hdrs m →
      p ∈ m ∨ ∃ j, j < hdrs.length ∧ i + j < row.length ∧
        p = (hdrs.getD j "", row.getD (i + j) "") ∧ hdrs.getD j "" ≠ "" := by
  intro hdrs
  induction hdrs with
  | nil => intro i row m p hp; left; exact hp
  | cons h t ih =>
    intro i row m p hp
    rw [gmrInsertAll] at hp
    by_cases hcond : h ≠ "" ∧ i < row.length
    · rw [if_pos hcond] at hp
      rcases ih (i + 1) row _ p hp with hm | ⟨j, hj1, hj2, hj3, hj4⟩
      · rcases mem_jsObjInsert _ _ _ _ hm with h1 | h2
        · left; exact h1
        · right
          refine ⟨0, by simp, by simpa using hcond.2, by simpa using h2, by simpa using hcond.1⟩
      · right
        refine ⟨j + 1, by simpa using Nat.succ_lt_succ hj1, by omega, ?_, ?_⟩
        · rw [List.getD_cons_succ, show i + (j + 1) = (i + 1) + j by omega]
          exact hj3
        · rw [List.getD_cons_succ]; exact hj4
    · rw [if_neg hcond] at hp
      rcases ih (i + 1) row m p hp with hm | ⟨j, hj1, hj2, hj3, hj4⟩
      · left; exact hm
      · right
        refine ⟨j + 1, by simpa using Nat.succ_lt_succ hj1, by omega, ?_, ?_⟩
        · rw [List.getD_cons_succ, show i + (j + 1) = (i + 1) + j by omega]
          exact hj3
        · rw [List.getD_cons_succ]; exact hj4

/-- C3: the GMR normalizer's header row is the first row with more than
one cell all shorter than 100 characters, defaulting to index 0; every
row strictly after it becomes exactly one record, in order; and every
key/value pair of such a record comes from a position where the data row
has a defined cell (shorter rows omit the missing trailing keys). -/
theorem C3_gmr_header_inference (rows : List (List String)) (hne : rows ≠ []) :
    (∀ r : List String, gmrHeaderPred r = true ↔ (1 < r.length ∧ ∀ c ∈ r, c.length < 100)) ∧
    ((gmrHeaderPred (rows.getD (gmrHeaderIndex rows) []) = true ∧
        ∀ j < gmrHeaderIndex rows, gmrHeaderPred (rows.getD j []) = false) ∨
      (gmrHeaderIndex rows = 0 ∧ ∀ r ∈ rows, gmrHeaderPred r = false)) ∧
    (∀ tid tnum, parseGMRTable tid tnum rows =
      .ok ⟨tid, tnum,
        (rows.drop (gmrHeaderIndex rows + 1)).map
          (fun r => gmrRecord ((rows.getD (gmrHeaderIndex rows) []).map normalizeHeader) r),
        ((rows.drop (gmrHeaderIndex rows + 1)).map
          (fun r => gmrRecord ((rows.getD (gmrHeaderIndex rows) []).map normalizeHeader) r)).length⟩) ∧
    (∀ (hdrs r : List String) (p : String × String), p ∈ gmrRecord hdrs r →
      ∃ j, j < hdrs.length ∧ j < r.length ∧
        p = (hdrs.getD j "", r.getD j "") ∧ hdrs.getD j "" ≠ "") := by
  refine ⟨?_, ?_, ?_, ?_⟩
  · intro r
    simp [gmrHeaderPred, List.all_eq_true]
  · cases hf : gmrFindHeader 0 rows with
    | none =>
      right
      constructor
      · rw [gmrHeaderIndex, hf]; rfl
      · exact gmrFindHeader_none rows 0 hf
    | some j =>
      left
      have hidx : gmrHeaderIndex rows = j := by rw [gmrHeaderIndex, hf]; rfl
      obtain ⟨_, _, h3, h4⟩ := gmrFindHeader_some rows 0 j hf
      rw [hidx]
      constructor
      · simpa using h3
      · intro k hk
        have := h4 k (by omega)
        simpa using this
  · intro tid tnum
    simp only [parseGMRTable]
    rw [if_pos (gmrHeaderIndex_lt rows hne)]
  · intro hdrs r p hp
    rcases mem_gmrInsertAll hdrs 0 r [] p hp with hm | ⟨j, hj1, hj2, hj3, hj4⟩
    · cases hm
    · exact ⟨j, hj1, by simpa using hj2, by simpa using hj3, hj4⟩

/-- Witness for C3 at the spec's scenario 1 table. -/
theorem C3_gmr_header_inference_witness :
    gmrHeaderIndex [["A", "B"], ["1", "2"], ["3", "4"]] = 0 ∧
    parseGMRTable "grd1" 1 [["A", "B"], ["1", "2"], ["3", "4"]] =
      .ok ⟨"grd1", 1, [[("A", "1"), ("B", "2")], [("A", "3"), ("B", "4")]], 2⟩ := by
  have h := C3_gmr_header_inference [["A", "B"], ["1", "2"], ["3", "4"]] (by decide)
  have h3 := h.2.2.1 "grd1" 1
  exact ⟨by decide, by rw [h3]; decide⟩

/-! ## Helper lemmas: enumeration -/

theorem enum_map_num {α β : Type} (l : List α) (f : Nat × α → β) (num : β → Nat)
    (hf : ∀ p, num (f p) = p.1 + 1) :
    (l.enum.map f).map num = List.range' 1 l.length := by
  rw [List.map_map]
  have h1 : (num ∘ f) = (fun n => n + 1) ∘ Prod.fst := by
    funext p
    exact hf p
  rw [h1, ← List.map_map, List.enum_map_fst, List.range'_eq_map_range]
  simp [Nat.add_comm]

theorem enum_map_snd_comp {α β : Type} (l : List α) (g : α → β) :
    l.enum.map (fun p => g p.2) = l.map g := by
  have h1 : (fun p : Nat × α => g p.2) = g ∘ Prod.snd := rfl
  rw [h1, ← List.map_map, List.enum_map_snd]

/-- C9 (amended): the server-side assembler reassigns `table_number`
densely as `1..k` in output order and purely restructures the selected
tables (ids and rows pass through unchanged, `total_tables` is the
retained count) - but before assembling it selects tables per source:
for code `2` (GMR) only tables whose id starts with `Grid` or `grd` are
kept, and for any other code only the first extracted table is kept. -/
theorem C9_assembler_restructuring :
    ∀ (opt awb name now : String) (tables : List ExtTable),
      (responseData opt awb name now tables).tables.map (fun t => t.table_number)
          = List.range' 1 (responseData opt awb name now tables).tables.length ∧
      (responseData opt awb name now tables).tables.map (fun t => (t.table_id, t.rows))
          = (usefulTablesFn opt tables).map
              (fun t => (t.table_id, t.rows.map (fun r => r.cells.map (fun c => c.text)))) ∧
      (responseData opt awb name now tables).total_tables
          = (responseData opt awb name now tables).tables.length ∧
      (opt = "2" → usefulTablesFn opt tables
          = tables.filter (fun t => jsStartsWith t.table_id "Grid" || jsStartsWith t.table_id "grd")) ∧
      (opt ≠ "2" → usefulTablesFn opt tables = tables.take 1) := by
  intro opt awb name now tables
  refine ⟨?_, ?_, ?_, ?_, ?_⟩
  · simp only [responseData, List.length_map, List.enum_length]
    exact enum_map_num _ _ _ (fun p => rfl)
  · simp only [responseData, List.map_map]
    exact enum_map_snd_comp (usefulTablesFn opt tables)
      (fun t => (t.table_id, t.rows.map (fun r => r.cells.map (fun c => c.text))))
  · simp only [responseData, List.length_map, List.enum_length]
  · intro h
    rw [usefulTablesFn, if_pos h]
  · intro h
    rw [usefulTablesFn, if_neg h]

/-- Witness for C9 at a concrete two-table extraction under code 2. -/
theorem C9_assembler_restructuring_witness :
    ((responseData "2" "a" "n" "t"
        [⟨0, "grd1", 1, [⟨0, [⟨"A", false⟩]⟩]⟩,
         ⟨1, "foo", 1, [⟨0, [⟨"B", false⟩]⟩]⟩]).tables.map (fun t => t.table_number)
      = List.range' 1 (responseData "2" "a" "n" "t"
          [⟨0, "grd1", 1, [⟨0, [⟨"A", false⟩]⟩]⟩,
           ⟨1, "foo", 1, [⟨0, [⟨"B", false⟩]⟩]⟩]).tables.length) ∧
    usefulTablesFn "2"
        [⟨0, "grd1", 1, [⟨0, [⟨"A", false⟩]⟩]⟩,
         ⟨1, "foo", 1, [⟨0, [⟨"B", false⟩]⟩]⟩]
      = List.filter (fun t => jsStartsWith t.table_id "Grid" || jsStartsWith t.table_id "grd")
          [⟨0, "grd1", 1, [⟨0, [⟨"A", false⟩]⟩]⟩,
           ⟨1, "foo", 1, [⟨0, [⟨"B", false⟩]⟩]⟩] :=
  ⟨(C9_assembler_restructuring "2" "a" "n" "t" _).1,
    (C9_assembler_restructuring "2" "a" "n" "t" _).2.2.2.1 rfl⟩

/-- Counterexample to C9 as stated: the assembly stage does drop tables.
Of two retained extracted tables (`grd1` and `foo`), the GMR response
keeps only one, and under the DCSC code only the first table survives. -/
theorem C9_assembler_drops_counterexample :
    (responseData "2" "x" "y" "z"
        [⟨0, "grd1", 1, [⟨0, [⟨"A", false⟩]⟩]⟩,
         ⟨1, "foo", 1, [⟨0, [⟨"B", false⟩]⟩]⟩]).tables.length = 1 ∧
    (responseData "1" "x" "y" "z"
        [⟨0, "grd1", 1, [⟨0, [⟨"A", false⟩]⟩]⟩,
         ⟨1, "foo", 1, [⟨0, [⟨"B", false⟩]⟩]⟩]).tables.length = 1 ∧
    ([⟨0, "grd1", 1, [⟨0, [⟨"A", false⟩]⟩]⟩,
      (⟨1, "foo", 1, [⟨0, [⟨"B", false⟩]⟩]⟩ : ExtTable)] : List ExtTable).length = 2 := by
  exact ⟨by decide, by decide, by decide⟩

/-! ## Helper lemmas: the timestamp is the only clock-dependent output -/

theorem parseDCSCTables_time (rd : RawData) (t : String) :
    parseDCSCTables { rd with extraction_time := t }
      = { parseDCSCTables rd with extraction_time := t } := rfl

theorem parseGMRTables_time (rd : RawData) (t : String) :
    parseGMRTables { rd with extraction_time := t }
      = (parseGMRTables rd).map (fun e => { e with extraction_time := t }) := by
  show (rd.tables.mapM (fun tb => parseGMRTable tb.table_id tb.table_number tb.rows)).map _
      = ((rd.tables.mapM (fun tb => parseGMRTable tb.table_id tb.table_number tb.rows)).map _).map _
  cases rd.tables.mapM (fun tb => parseGMRTable tb.table_id tb.table_number tb.rows) with
  | error e => rfl
  | ok bs => rfl

theorem parseTableData_time (rd : RawData) (t : String) :
    parseTableData { rd with extraction_time := t }
      = (parseTableData rd).map (setTimeUI t) := by
  have hc : ({ rd with extraction_time := t } : RawData).service_code = rd.service_code := rfl
  by_cases h1 : rd.service_code = "1"
  · rw [parseTableData, parseTableData, hc, if_pos h1, if_pos h1, parseDCSCTables_time]
    rfl
  · by_cases h2 : rd.service_code = "2"
    · rw [parseTableData, parseTableData, hc, if_neg h1, if_neg h1, if_pos h2, if_pos h2,
        parseGMRTables_time]
      cases parseGMRTables rd with
      | error e => rfl
      | ok bs => rfl
    · rw [parseTableData, parseTableData, hc, if_neg h1, if_neg h1, if_neg h2, if_neg h2]
      rfl

theorem stripTimeE_map_setTime (x : Except String UIResult) (t : String) :
    stripTimeE (x.map (setTimeUI t)) = stripTimeE x := by
  cases x with
  | error e => rfl
  | ok u => cases u <;> rfl

/-- C8 (amended): for a fixed `(sourceIdentifier, htmlDocument)` pair the
pipeline's output envelope is identical up to the `extraction_time`
field, which is stamped from the wall clock on each run; with the clock
reading fixed the output is a pure function of the inputs. -/
theorem C8_determinism_modulo_timestamp
    (service awb : String) (dom : List DomTable) (t1 t2 : String) :
    stripTimeE (pipelineOut service awb dom t1) = stripTimeE (pipelineOut service awb dom t2) := by
  have key : ∀ τ : String, pipelineOut service awb dom τ
      = parseTableData { responseData (serviceOptionOf service) (jsTrim awb)
          (serviceNameOf (serviceOptionOf service)) "" (extractTables dom)
            with extraction_time := τ } := fun τ => rfl
  rw [key t1, key t2]
  generalize responseData (serviceOptionOf service) (jsTrim awb)
      (serviceNameOf (serviceOptionOf service)) "" (extractTables dom) = rd0
  exact (congrArg stripTimeE (parseTableData_time rd0 t1)).trans
    ((stripTimeE_map_setTime _ t1).trans
      ((stripTimeE_map_setTime _ t2).symm.trans
        (congrArg stripTimeE (parseTableData_time rd0 t2)).symm))

/-- Witness for C8: two runs with distinct clock readings agree once the
timestamp is erased. -/
theorem C8_determinism_modulo_timestamp_witness :
    stripTimeE (pipelineOut "gmr" "057"
        [⟨some "grd1", [⟨[⟨"A", "th"⟩, ⟨"B", "th"⟩]⟩, ⟨[⟨"1", "td"⟩, ⟨"2", "td"⟩]⟩]⟩] "T1")
      = stripTimeE (pipelineOut "gmr" "057"
        [⟨some "grd1", [⟨[⟨"A", "th"⟩, ⟨"B", "th"⟩]⟩, ⟨[⟨"1", "td"⟩, ⟨"2", "td"⟩]⟩]⟩] "T2") :=
  C8_determinism_modulo_timestamp "gmr" "057"
    [⟨some "grd1", [⟨[⟨"A", "th"⟩, ⟨"B", "th"⟩]⟩, ⟨[⟨"1", "td"⟩, ⟨"2", "td"⟩]⟩]⟩] "T1" "T2"

/-- Counterexample to C8 as stated: two runs on the same
`(sourceIdentifier, htmlDocument)` pair at different clock readings
produce different envelopes - the code stamps `new Date()` into
`extraction_time`, so the output is not byte-identical across runs. -/
theorem C8_timestamp_counterexample :
    pipelineOut "gmr" "057"
        [⟨some "grd1", [⟨[⟨"A", "th"⟩, ⟨"B", "th"⟩]⟩, ⟨[⟨"1", "td"⟩, ⟨"2", "td"⟩]⟩]⟩] "T1"
      ≠ pipelineOut "gmr" "057"
        [⟨some "grd1", [⟨[⟨"A", "th"⟩, ⟨"B", "th"⟩]⟩, ⟨[⟨"1", "td"⟩, ⟨"2", "td"⟩]⟩]⟩] "T2" := by
  intro h
  exact absurd (congrArg uiTimeE h) (by decide)

/-- C2 (amended): while in a section with no header yet, a row becomes
the header iff its cell count is strictly between 1 and 20, every cell's
length is strictly between 0 and 50, and no cell starts with the
date-like pattern two digits, hyphen, three word characters (letters,
digits or underscore), hyphen, two digits; on a match the headers are the
cells trimmed with internal whitespace collapsed, and any other
non-section-start row leaves the state entirely unchanged. -/
theorem C2_header_candidate_rule :
    (∀ row : List String, looksLikeHeader row = true ↔
      (1 < row.length ∧ row.length < 20 ∧
        (∀ c ∈ row, 0 < c.length ∧ c.length < 50) ∧
        ∀ c ∈ row, dateLikeTest c = false)) ∧
    (∀ (out : List DSection) (s : DSection) (row : List String),
      looksLikeHeader row = true →
        dcscStep ⟨out, some s, []⟩ row = ⟨out, some s, row.map normalizeHeader⟩) ∧
    (∀ (out : List DSection) (s : DSection) (row : List String),
      looksLikeHeader row = false → isSectionStart row = false →
        dcscStep ⟨out, some s, []⟩ row = ⟨out, some s, []⟩) := by
  have hiff : ∀ row : List String, looksLikeHeader row = true ↔
      (1 < row.length ∧ row.length < 20 ∧
        (∀ c ∈ row, 0 < c.length ∧ c.length < 50) ∧
        ∀ c ∈ row, dateLikeTest c = false) := by
    intro row
    rw [looksLikeHeader]
    simp only [Bool.and_eq_true, decide_eq_true_eq, List.all_eq_true, Bool.not_eq_true',
      List.any_eq_false, and_assoc]
    constructor
    · rintro ⟨h1, h2, h3, h4⟩
      exact ⟨h1, h2, fun c hc => by simpa using h3 c hc,
        fun c hc => by simpa using h4 c hc⟩
    · rintro ⟨h1, h2, h3, h4⟩
      exact ⟨h1, h2, fun c hc => by simpa using h3 c hc,
        fun c hc => by simpa using h4 c hc⟩
  refine ⟨hiff, ?_, ?_⟩
  · intro out s row hl
    have h2 : 1 < row.length := ((hiff row).mp hl).1
    have hss : isSectionStart row = false := by
      have hb : (row.length == 1) = false := by
        simp only [beq_eq_false_iff_ne]
        omega
      simp [isSectionStart, hb]
    have hemp : row.isEmpty = false := by
      cases row with
      | nil => simp at h2
      | cons a t => rfl
    simp [dcscStep, hss, hemp, hl]
  · intro out s row hl hss
    simp [dcscStep, hss, hl]

/-- Witness for C2 at the spec's scenario 2 header row. -/
theorem C2_header_candidate_rule_witness :
    looksLikeHeader ["Date", "Status"] = true ∧
    dcscStep ⟨[], some ⟨"SHIPMENT DETAILS", "shipment_details", []⟩, []⟩ ["Date", "Status"]
      = ⟨[], some ⟨"SHIPMENT DETAILS", "shipment_details", []⟩, ["Date", "Status"]⟩ := by
  refine ⟨by decide, ?_⟩
  have h := C2_header_candidate_rule.2.1 [] ⟨"SHIPMENT DETAILS", "shipment_details", []⟩
    ["Date", "Status"] (by decide)
  rw [h]
  decide

/-- Counterexample to C2 as stated: the row `["01-234-56", "x"]`
satisfies every condition of the claim - its first cell does not match a
"two digits, hyphen, three LETTERS, hyphen, two digits" pattern at any
position - yet the code's `\w`-based regex accepts `234` as three word
characters, so `looksLikeHeader` rejects the row and the header state
stays empty. -/
theorem C2_letters_vs_word_chars_counterexample :
    (1 < (["01-234-56", "x"] : List String).length ∧
      (["01-234-56", "x"] : List String).length < 20 ∧
      (∀ c ∈ (["01-234-56", "x"] : List String), 0 < c.length ∧ c.length < 50) ∧
      (∀ c ∈ (["01-234-56", "x"] : List String), specContainsLetterDate c = false)) ∧
    dcscStep ⟨[], some ⟨"S DETAILS", "s_details", []⟩, []⟩ ["01-234-56", "x"]
      = ⟨[], some ⟨"S DETAILS", "s_details", []⟩, []⟩ ∧
    looksLikeHeader ["01-234-56", "x"] = false ∧
    dateLikeTest "01-234-56" = true := by
  exact ⟨by decide, by decide, by decide, by decide⟩

/-! ## Helper lemmas: record keys -/

theorem keys_jsObjInsert (m : Record) (k v : String) :
    (jsObjInsert m k v).map Prod.fst =
      if k ∈ m.map Prod.fst then m.map Prod.fst else m.map Prod.fst ++ [k] := by
  rw [jsObjInsert]
  by_cases hc : m.any (fun q => q.1 == k) = true
  · rw [if_pos hc, List.map_map]
    have hk : k ∈ m.map Prod.fst := by
      obtain ⟨q, hq, he⟩ := List.any_eq_true.mp hc
      exact List.mem_map.mpr ⟨q, hq, by simpa using he⟩
    rw [if_pos hk]
    apply List.map_congr_left
    intro q hq
    by_cases hqk : (q.1 == k) = true
    · have hq1 : q.1 = k := by simpa using hqk
      simp [hq1]
    · have hq1 : q.1 ≠ k := by simpa using hqk
      simp [hq1]
  · rw [if_neg hc]
    have hk : k ∉ m.map Prod.fst := by
      intro hmem
      obtain ⟨q, hq, he⟩ := List.mem_map.mp hmem
      exact hc (List.any_eq_true.mpr ⟨q, hq, by simpa using he⟩)
    rw [if_neg hk, List.map_append]
    rfl

theorem keys_nodup_jsObjInsert (m : Record) (k v : String)
    (h : (m.map Prod.fst).Nodup) : ((jsObjInsert m k v).map Prod.fst).Nodup := by
  rw [keys_jsObjInsert]
  by_cases hk : k ∈ m.map Prod.fst
  · rw [if_pos hk]; exact h
  · rw [if_neg hk]
    rw [List.nodup_append]
    refine ⟨h, List.nodup_singleton k, ?_⟩
    intro a ha hb
    rw [List.mem_singleton] at hb
    subst hb
    exact hk ha

theorem length_jsObjInsert (m : Record) (k v : String) :
    (jsObjInsert m k v).length ≤ m.length + 1 := by
  have h1 : (jsObjInsert m k v).length = ((jsObjInsert m k v).map Prod.fst).length :=
    (List.length_map _ _).symm
  rw [h1, keys_jsObjInsert]
  by_cases hk : k ∈ m.map Prod.fst
  · rw [if_pos hk, List.length_map]; omega
  · rw [if_neg hk, List.length_append, List.length_map]; simp

theorem keys_jsObjInsert_not_mem (m : Record) (k v : String)
    (hk : k ∉ m.map Prod.fst) :
    (jsObjInsert m k v).map Prod.fst = m.map Prod.fst ++ [k] := by
  rw [keys_jsObjInsert, if_neg hk]

theorem dcscKeysFrom_length : ∀ (hdrs : List String) (i : Nat),
    (dcscKeysFrom i hdrs).length = hdrs.length := by
  intro hdrs
  induction hdrs with
  | nil => intro i; rfl
  | cons h t ih =>
    intro i
    rw [dcscKeysFrom, List.length_cons, ih (i + 1), List.length_cons]

theorem dcscInsertAll_nodup_len :
    ∀ (hdrs : List String) (i : Nat) (row : List String) (m : Record),
      (m.map Prod.fst).Nodup →
      ((dcscInsertAll row i hdrs m).map Prod.fst).Nodup ∧
      (dcscInsertAll row i hdrs m).length ≤ m.length + hdrs.length := by
  intro hdrs
  induction hdrs with
  | nil => intro i row m hm; exact ⟨hm, by simp [dcscInsertAll]⟩
  | cons h t ih =>
    intro i row m hm
    rw [dcscInsertAll]
    have hnd := keys_nodup_jsObjInsert m
      (if h = "" then "Column " ++ toString (i + 1) else h) (row.getD i "") hm
    obtain ⟨h1, h2⟩ := ih (i + 1) row _ hnd
    refine ⟨h1, ?_⟩
    have h3 := length_jsObjInsert m
      (if h = "" then "Column " ++ toString (i + 1) else h) (row.getD i "")
    rw [List.length_cons]
    omega

theorem dcscInsertAll_keys_eq :
    ∀ (hdrs : List String) (i : Nat) (row : List String) (m : Record),
      (m.map Prod.fst ++ dcscKeysFrom i hdrs).Nodup →
      (dcscInsertAll row i hdrs m).map Prod.fst = m.map Prod.fst ++ dcscKeysFrom i hdrs := by
  intro hdrs
  induction hdrs with
  | nil => intro i row m _; simp [dcscInsertAll, dcscKeysFrom]
  | cons h t ih =>
    intro i row m hnd
    have hkeysfrom : dcscKeysFrom i (h :: t)
        = (if h = "" then "Column " ++ toString (i + 1) else h) :: dcscKeysFrom (i + 1) t := rfl
    rw [hkeysfrom] at hnd
    have hkm : (if h = "" then "Column " ++ toString (i + 1) else h) ∉ m.map Prod.fst := by
      rcases List.nodup_append.mp hnd with ⟨_, _, hdisj⟩
      intro hmem
      exact hdisj hmem (List.mem_cons_self _ _)
    have hkeys := keys_jsObjInsert_not_mem m
      (if h = "" then "Column " ++ toString (i + 1) else h) (row.getD i "") hkm
    rw [dcscInsertAll]
    rw [ih (i + 1) row _ (by rw [hkeys, List.append_assoc]; simpa using hnd), hkeys,
      hkeysfrom, List.append_assoc]
    rfl

theorem gmrInsertAll_nodup_len :
    ∀ (hdrs : List String) (i : Nat) (row : List String) (m : Record),
      (m.map Prod.fst).Nodup →
      ((gmrInsertAll row i hdrs m).map Prod.fst).Nodup ∧
      (gmrInsertAll row i hdrs m).length ≤ m.length + hdrs.length := by
  intro hdrs
  induction hdrs with
  | nil => intro i row m hm; exact ⟨hm, by simp [gmrInsertAll]⟩
  | cons h t ih =>
    intro i row m hm
    rw [gmrInsertAll]
    by_cases hcond : h ≠ "" ∧ i < row.length
    · rw [if_pos hcond]
      have hnd := keys_nodup_jsObjInsert m h (row.getD i "") hm
      obtain ⟨h1, h2⟩ := ih (i + 1) row _ hnd
      have h3 := length_jsObjInsert m h (row.getD i "")
      exact ⟨h1, by rw [List.length_cons]; omega⟩
    · rw [if_neg hcond]
      obtain ⟨h1, h2⟩ := ih (i + 1) row m hm
      exact ⟨h1, by rw [List.length_cons]; omega⟩

theorem gmrInsertAll_keys_eq :
    ∀ (hdrs : List String) (i : Nat) (row : List String) (m : Record),
      (∀ h ∈ hdrs, h ≠ "") → i + hdrs.length ≤ row.length →
      (m.map Prod.fst ++ hdrs).Nodup →
      (gmrInsertAll row i hdrs m).map Prod.fst = m.map Prod.fst ++ hdrs := by
  intro hdrs
  induction hdrs with
  | nil => intro i row m _ _ _; simp [gmrInsertAll]
  | cons h t ih =>
    intro i row m hne hlen hnd
    have hcond : h ≠ "" ∧ i < row.length := by
      refine ⟨hne h (List.mem_cons_self _ _), ?_⟩
      rw [List.length_cons] at hlen
      omega
    have hkm : h ∉ m.map Prod.fst := by
      rcases List.nodup_append.mp hnd with ⟨_, _, hdisj⟩
      intro hmem
      exact hdisj hmem (List.mem_cons_self _ _)
    have hkeys := keys_jsObjInsert_not_mem m h (row.getD i "") hkm
    rw [gmrInsertAll, if_pos hcond]
    rw [ih (i + 1) row _ (fun x hx => hne x (List.mem_cons_of_mem _ hx))
      (by rw [List.length_cons] at hlen; omega)
      (by rw [hkeys, List.append_assoc]; simpa using hnd), hkeys, List.append_assoc]
    rfl

/-- C4 (amended): every Record's key list is duplicate-free and its
cardinality is at most the header row's cell count.  It equals the header
row's derived key list (with the `Column <n>` placeholder for empty names
in source A) exactly when the derived keys are pairwise distinct - and,
for source B, when additionally every derived name is non-empty and the
data row covers every header position; duplicate headers or short data
rows make the record strictly smaller. -/
theorem C4_record_key_cardinality :
    (∀ hdrs row : List String, ((dcscRecord hdrs row).map Prod.fst).Nodup ∧
      (dcscRecord hdrs row).length ≤ hdrs.length) ∧
    (∀ hdrs : List String, (dcscKeys hdrs).length = hdrs.length) ∧
    (∀ hdrs row : List String, (dcscKeys hdrs).Nodup →
      (dcscRecord hdrs row).map Prod.fst = dcscKeys hdrs) ∧
    (∀ hdrs row : List String, ((gmrRecord hdrs row).map Prod.fst).Nodup ∧
      (gmrRecord hdrs row).length ≤ hdrs.length) ∧
    (∀ hdrs row : List String, hdrs.Nodup → (∀ h ∈ hdrs, h ≠ "") →
      hdrs.length ≤ row.length → (gmrRecord hdrs row).map Prod.fst = hdrs) := by
  refine ⟨?_, fun hdrs => dcscKeysFrom_length hdrs 0, ?_, ?_, ?_⟩
  · intro hdrs row
    have := dcscInsertAll_nodup_len hdrs 0 row [] (by simp)
    simpa [dcscRecord] using this
  · intro hdrs row hnd
    have := dcscInsertAll_keys_eq hdrs 0 row [] (by simpa [dcscKeys] using hnd)
    simpa [dcscRecord, dcscKeys] using this
  · intro hdrs row
    have := gmrInsertAll_nodup_len hdrs 0 row [] (by simp)
    simpa [gmrRecord] using this
  · intro hdrs row hnd hne hlen
    have := gmrInsertAll_keys_eq hdrs 0 row [] hne (by simpa using hlen)
      (by simpa using hnd)
    simpa [gmrRecord] using this

/-- Witness for C4: a DCSC record with an empty header name (placeholder
key) and a GMR record over scenario 2's header. -/
theorem C4_record_key_cardinality_witness :
    (dcscKeys ["A", ""]).Nodup ∧
    (dcscRecord ["A", ""] ["1", "2"]).map Prod.fst = dcscKeys ["A", ""] ∧
    (gmrRecord ["Date", "Status"] ["05-Jan-24", "Arrived"]).map Prod.fst
      = ["Date", "Status"] :=
  ⟨by decide,
    C4_record_key_cardinality.2.2.1 ["A", ""] ["1", "2"] (by decide),
    C4_record_key_cardinality.2.2.2.2 ["Date", "Status"] ["05-Jan-24", "Arrived"]
      (by decide) (by decide) (by decide)⟩

/-- Counterexample to C4 as stated: a section whose header row is
`["A", "A"]` (a legitimate header candidate) produces a record with a
single key, not two - the second assignment overwrites the first - so
`keys(Record)` does not always have the header row's cell count. -/
theorem C4_duplicate_header_counterexample :
    dcscTable [["S DETAILS"], ["A", "A"], ["x", "y"]]
      = [⟨"S DETAILS", "s_details", [[("A", "y")]]⟩] ∧
    ((dcscRecord ["A", "A"] ["x", "y"]).map Prod.fst).length = 1 ∧
    (["A", "A"] : List String).length = 2 := by
  exact ⟨by decide, by decide, by decide⟩

/-! ## Helper lemmas: the DCSC state machine against its segment decomposition -/

theorem segStep_snd (h : List String) (d : List Record) (row : List String) :
    segStep (h, d) row = ((segStep (h, []) row).1, d ++ (segStep (h, []) row).2) := by
  rw [segStep, segStep]
  split_ifs <;> simp

theorem foldl_segStep_snd :
    ∀ (rows : List (List String)) (h : List String) (d : List Record),
      rows.foldl segStep (h, d)
        = ((rows.foldl segStep (h, [])).1, d ++ (rows.foldl segStep (h, [])).2) := by
  intro rows
  induction rows with
  | nil => intro h d; simp
  | cons r rs ih =>
    intro h d
    rw [List.foldl_cons, List.foldl_cons, segStep_snd h d r]
    rcases hp : segStep (h, []) r with ⟨h2, d2⟩
    show List.foldl segStep (h2, d ++ d2) rs
        = ((List.foldl segStep (h2, d2) rs).1, d ++ (List.foldl segStep (h2, d2) rs).2)
    rw [ih h2 (d ++ d2), ih h2 d2, List.append_assoc]

theorem dcscStep_start (st : DcscState) (row : List String)
    (h : isSectionStart row = true) :
    dcscStep st row = ⟨st.out ++ flushSec st.cur,
      some ⟨jsTrim (row.headD ""), slugOf (row.headD ""), []⟩, []⟩ := by
  simp [dcscStep, h]

theorem dcscStep_section_vs_segStep (out : List DSection) (s : DSection)
    (hdrs : List String) (row : List String) (h : isSectionStart row = false) :
    dcscStep ⟨out, some s, hdrs⟩ row
      = ⟨out, some { s with data := s.data ++ (segStep (hdrs, []) row).2 },
          (segStep (hdrs, []) row).1⟩ := by
  simp only [dcscStep, segStep, h, Bool.false_eq_true, if_false]
  split_ifs <;> simp

theorem dcscFinish_run_section :
    ∀ (rows : List (List String)) (out : List DSection) (s : DSection) (hdrs : List String),
      dcscFinish (dcscRun rows ⟨out, some s, hdrs⟩)
        = out ++ flushSec (some { s with
              data := s.data ++ ((segsH rows).1.foldl segStep (hdrs, [])).2 })
          ++ ((segsH rows).2.map secOfSeg).filter (fun sec => !sec.data.isEmpty) := by
  intro rows
  induction rows with
  | nil =>
    intro out s hdrs
    simp [dcscRun, dcscFinish, segsH]
  | cons r rs ih =>
    intro out s hdrs
    simp only [dcscRun] at ih ⊢
    rw [List.foldl_cons]
    by_cases hstart : isSectionStart r = true
    · rw [dcscStep_start _ _ hstart, ih]
      have hseg : segsH (r :: rs) = ([], (r.headD "", (segsH rs).1) :: (segsH rs).2) := by
        simp [segsH, hstart]
      rw [hseg]
      simp only [List.foldl_nil, List.map_cons, List.filter_cons, List.append_nil]
      by_cases hE : ((segsH rs).1.foldl segStep ([], [])).2 = []
      · simp [flushSec, secOfSeg, segRecords, hE, List.append_assoc]
      · simp [flushSec, secOfSeg, segRecords, hE, List.append_assoc]
    · have hstart' : isSectionStart r = false := by simpa using hstart
      rw [dcscStep_section_vs_segStep out s hdrs r hstart', ih]
      have hseg : segsH (r :: rs) = (r :: (segsH rs).1, (segsH rs).2) := by
        simp [segsH, hstart']
      rw [hseg]
      rw [List.foldl_cons]
      rcases hp : segStep (hdrs, []) r with ⟨h2, d2⟩
      rw [foldl_segStep_snd (segsH rs).1 h2 d2]
      simp [List.append_assoc]

theorem dcscFinish_run_noSection :
    ∀ (rows : List (List String)) (out : List DSection),
      dcscFinish (dcscRun rows ⟨out, none, []⟩)
        = out ++ ((segsH rows).2.map secOfSeg).filter (fun sec => !sec.data.isEmpty) := by
  intro rows
  induction rows with
  | nil => intro out; simp [dcscRun, dcscFinish, flushSec, segsH]
  | cons r rs ih =>
    intro out
    simp only [dcscRun] at ih ⊢
    rw [List.foldl_cons]
    by_cases hstart : isSectionStart r = true
    · rw [dcscStep_start _ _ hstart]
      have h2 := dcscFinish_run_section rs (out ++ flushSec none)
        ⟨jsTrim (r.headD ""), slugOf (r.headD ""), []⟩ []
      simp only [dcscRun] at h2
      rw [h2]
      have hseg : segsH (r :: rs) = ([], (r.headD "", (segsH rs).1) :: (segsH rs).2) := by
        simp [segsH, hstart]
      rw [hseg]
      simp only [List.map_cons, List.filter_cons]
      by_cases hE : ((segsH rs).1.foldl segStep ([], [])).2 = []
      · simp [flushSec, secOfSeg, segRecords, hE, List.append_assoc]
      · simp [flushSec, secOfSeg, segRecords, hE, List.append_assoc]
    · have hstart' : isSectionStart r = false := by simpa using hstart
      have hstep : dcscStep ⟨out, none, []⟩ r = ⟨out, none, []⟩ := by
        simp [dcscStep, hstart']
      rw [hstep, ih]
      have hseg : segsH (r :: rs) = (r :: (segsH rs).1, (segsH rs).2) := by
        simp [segsH, hstart']
      rw [hseg]

/-- C1: a single-cell row containing the case-sensitive marker
`"DETAILS"` is a section-start event taken regardless of state: it pushes
the current section iff that section holds at least one record, starts a
fresh section titled by the cell's trimmed text with header state reset;
the end-of-table flush emits the current section iff non-empty; and hence
the emitted sections are exactly, in order, the section-start events
whose accumulated data is non-empty at the next section start or the end
of the table - so their number equals the count of such events. -/
theorem C1_section_flush_law :
    (∀ (st : DcscState) (row : List String), isSectionStart row = true →
      dcscStep st row = ⟨st.out ++ flushSec st.cur,
        some ⟨jsTrim (row.headD ""), slugOf (row.headD ""), []⟩, []⟩) ∧
    (∀ s : DSection, flushSec (some s) = if s.data.isEmpty then [] else [s]) ∧
    (∀ rows, dcscTable rows
        = ((segsH rows).2.map secOfSeg).filter (fun sec => !sec.data.isEmpty)) ∧
    (∀ rows, (dcscTable rows).length
        = (segsH rows).2.countP (fun seg => !(segRecords seg.2).isEmpty)) := by
  have htable : ∀ rows, dcscTable rows
      = ((segsH rows).2.map secOfSeg).filter (fun sec => !sec.data.isEmpty) := by
    intro rows
    rw [dcscTable]
    have h := dcscFinish_run_noSection rows []
    simpa using h
  refine ⟨fun st row h => dcscStep_start st row h, fun s => rfl, htable, ?_⟩
  intro rows
  rw [htable rows, ← List.countP_eq_length_filter, List.countP_map]
  rfl

/-- Witness for C1 at a concrete section-start row applied in the
initial state. -/
theorem C1_section_flush_law_witness :
    isSectionStart ["X DETAILS"] = true ∧
    dcscStep ⟨[], none, []⟩ ["X DETAILS"]
      = ⟨[], some ⟨"X DETAILS", "x_details", []⟩, []⟩ := by
  refine ⟨by decide, ?_⟩
  have h := C1_section_flush_law.1 ⟨[], none, []⟩ ["X DETAILS"] (by decide)
  rw [h]
  decide
